import Mathlib

/-!
Verification of the fcd (Fast Change Directory) alias-resolution engine.

This file is a shallow embedding, in Lean 4, of the core logic of `fcd.py`:
the alias store and its persistence (`Db.load` / `Db.save`), the readline
completer (`TabComplete.complete`), the interactive resolution loop shared by
the alias, delete and command handlers, and the top-level dispatch
(`Fcd.args_handler`).  Strings are modelled by Lean `String`; Python string
comparison and lowering are modelled on the underlying code-point lists so
that every definition evaluates by kernel reduction.  Filesystem facts
(`os.path.isdir`) are a Boolean oracle passed in as a parameter; the readline
input stream is a list of events (a typed line, or a keyboard interrupt);
writes to the backing database file and to the two hand-off files are
recorded in the result instead of performed.
-/

/-- Python `str.lower` applied to the code points of a string.  `fcd.py` only
uses it as a sort key (`sorted(..., key=str.lower)`). -/
def lowerKey (s : String) : List Char := s.data.map Char.toLower

/-- Lexicographic less-or-equal on code-point lists: this is how Python
compares the lowered key strings inside `sorted`. -/
def charListLe : List Char → List Char → Bool
  | [], _ => true
  | _ :: _, [] => false
  | a :: as, b :: bs =>
    if a.toNat < b.toNat then true
    else if b.toNat < a.toNat then false
    else charListLe as bs

/-- Case-insensitive order on aliases: the comparison performed by
`sorted(self._db.keys(), key=str.lower)` at `fcd.py:188`. -/
def ciLe (a b : String) : Prop := charListLe (lowerKey a) (lowerKey b) = true

instance : DecidableRel ciLe := fun a b => by unfold ciLe; infer_instance

theorem charListLe_total (as bs : List Char) :
    charListLe as bs = true ∨ charListLe bs as = true := by
  induction as generalizing bs with
  | nil => left; rfl
  | cons a as ih =>
    cases bs with
    | nil => right; rfl
    | cons b bs =>
      simp only [charListLe]
      rcases Nat.lt_trichotomy a.toNat b.toNat with h | h | h
      · left; simp [h]
      · have h1 : ¬ a.toNat < b.toNat := by omega
        have h2 : ¬ b.toNat < a.toNat := by omega
        rcases ih bs with hc | hc <;> simp [h1, h2, hc]
      · right; simp [h]

theorem charListLe_trans {as bs cs : List Char}
    (h1 : charListLe as bs = true) (h2 : charListLe bs cs = true) :
    charListLe as cs = true := by
  induction as generalizing bs cs with
  | nil => rfl
  | cons a as ih =>
    cases bs with
    | nil => simp [charListLe] at h1
    | cons b bs =>
      cases cs with
      | nil => simp [charListLe] at h2
      | cons c cs =>
        simp only [charListLe] at h1 h2 ⊢
        split_ifs at h1 h2 ⊢ <;>
          first
          | rfl
          | omega
          | exact ih h1 h2

instance : IsTotal String ciLe := ⟨fun _ _ => charListLe_total _ _⟩

instance : IsTrans String ciLe where
  trans _ _ _ h1 h2 := charListLe_trans h1 h2

/-- Python `x.startswith(text)`, on code points. -/
def startswith (x text : String) : Bool := text.data.isPrefixOf x.data

/-- A database record: `{"directory": ..., "command": ...}` (`fcd.py`
stores one such object per alias). -/
structure Record where
  directory : String
  command : String
deriving Repr, DecidableEq

/-- The in-memory database: the Python dict mapping alias strings to
records, modelled as an association list whose keys are unique (a Python
dict cannot hold a key twice). -/
abbrev Store := List (String × Record)

/-- Python `db[alias]` / `alias in db`: first matching key. -/
def Store.find? (db : Store) (a : String) : Option Record :=
  match db with
  | [] => none
  | (k, r) :: t => if k = a then some r else Store.find? t a

/-- Python `alias in db`. -/
def Store.contains (db : Store) (a : String) : Bool := (db.find? a).isSome

/-- Python `db.pop(alias)` (the removal part; fcd ignores the returned
value). -/
def Store.erase (db : Store) (a : String) : Store :=
  db.filter (fun p => p.1 ≠ a)

/-- Python `db.update({alias: record})`: replace in place if the key is
present, otherwise append (dicts keep insertion order). -/
def Store.insert (db : Store) (a : String) (r : Record) : Store :=
  if db.contains a then db.map (fun p => if p.1 = a then (a, r) else p)
  else db ++ [(a, r)]

/-- Python `db[alias]["command"] = cmd` (`fcd.py:426`). -/
def Store.setCommand (db : Store) (a : String) (cmd : String) : Store :=
  db.map (fun p => if p.1 = a then (p.1, { p.2 with command := cmd }) else p)

/-- The alias keys of the store, in dict order. -/
def Store.keys (db : Store) : List String := db.map Prod.fst

/-- The data-model invariant of the spec: alias keys are non-empty. -/
def Store.keysNonempty (db : Store) : Prop := ∀ p ∈ db, p.1 ≠ ""

instance (db : Store) : Decidable db.keysNonempty := by
  unfold Store.keysNonempty; infer_instance

/-- Model of `self._aliases = sorted(self._db.keys(), key=str.lower)` (`fcd.py:188`).
Python `sorted` is a stable sort by the lowered key; any stable sort by a
total preorder yields the same list, so it is modelled by the stable
insertion sort. -/
def sortedAliases (db : Store) : List String :=
  List.insertionSort ciLe db.keys

/-- Model of `TabComplete.complete` (`fcd.py:124-127`):
`results = [x for x in self._aliases if x.startswith(text)] + [None]`
followed by `results[state]`.  The result `some (some a)` models returning
the matching alias `a`, `some none` models returning the readline sentinel
`None`, and `none` models the `IndexError` Python raises when `state`
exceeds the last index of `results`. -/
def complete (aliases : List String) (text : String) (state : Nat) :
    Option (Option String) :=
  ((aliases.filter (fun x => startswith x text)).map some ++ [none])[state]?

/-- The fragment of JSON exercised by the fcd database file: strings and
objects (an object of objects of strings).  This is the value produced by
`json.load` and consumed by `json.dump` in `Db` (`fcd.py:137-175`). -/
inductive Json where
  | str (s : String)
  | obj (fields : List (String × Json))

/-- Field access in a parsed JSON object (Python `record["directory"]`). -/
def jLookup : List (String × Json) → String → Option Json
  | [], _ => none
  | (k, v) :: t, key => if k = key then some v else jLookup t key

/-- Serialization of one record, as `json.dump` lays it out. -/
def recordToJson (r : Record) : Json :=
  .obj [("directory", .str r.directory), ("command", .str r.command)]

/-- Serialization of the whole store (`json.dump(database, file)`,
`fcd.py:171`). -/
def storeToJson (db : Store) : Json :=
  .obj (db.map (fun p => (p.1, recordToJson p.2)))

/-- Reading one record back out of parsed JSON, with the two-string-field
shape the rest of the program relies on. -/
def jsonToRecord (j : Json) : Option Record :=
  match j with
  | .obj fields =>
    match jLookup fields "directory", jLookup fields "command" with
    | some (.str d), some (.str c) => some ⟨d, c⟩
    | _, _ => none
  | _ => none

/-- Reading the whole store back out of parsed JSON. -/
def jsonFieldsToStore : List (String × Json) → Option Store
  | [] => some []
  | (a, j) :: t =>
    match jsonToRecord j, jsonFieldsToStore t with
    | some r, some db => some ((a, r) :: db)
    | _, _ => none

/-- Model of `json.load` of the database file content, under the object-of-records
shape the program relies on. -/
def jsonToStore (j : Json) : Option Store :=
  match j with
  | .obj fields => jsonFieldsToStore fields
  | _ => none

/-- The sentinel store created on first run (`fcd.py:153-155`). -/
def dummyStore : Store := [("dummy", ⟨"/dummy", ""⟩)]

/-- Result of `Db.load` (`fcd.py:137-163`): the loaded store together with
the list of serialized databases written during the load (the first-run
path saves the freshly created sentinel store), or a fatal
`JSONDecodeError` exit when the file exists but does not parse. -/
inductive LoadRes where
  | ok (database : Store) (writes : List Json)
  | corrupt

namespace Db

/-- Model of `Db.save` (`fcd.py:165-175`): serialize the in-memory store; the
resulting value is what lands in the backing file. -/
def save (database : Store) : Json := storeToJson database

/-- Model of `Db.load` (`fcd.py:137-163`): `none` models an absent backing file, in
which case the sentinel store is synthesized and immediately saved;
otherwise the file content is parsed. -/
def load (file : Option Json) : LoadRes :=
  match file with
  | some j =>
    match jsonToStore j with
    | some database => .ok database []
    | none => .corrupt
  | none => .ok dummyStore [save dummyStore]

end Db

/-- One event on the interactive input stream: a line typed by the user, or
a `KeyboardInterrupt` raised during the blocking read. -/
inductive InEvent where
  | line (s : String)
  | interrupt
deriving Repr, DecidableEq

/-- Result of the shared disambiguation loop: an exact store key together
with the unconsumed input events and the number of blocking reads
performed, or an interrupt, or an exhausted input script (the real loop
would still be blocked waiting for the user). -/
inductive LoopRes where
  | resolved (a : String) (rest : List InEvent) (reads : Nat)
  | interrupted (rest : List InEvent)
  | blocked
deriving Repr, DecidableEq

/-- Account for one more blocking read in a loop result. -/
def LoopRes.succRead : LoopRes → LoopRes
  | .resolved a r n => .resolved a r (n + 1)
  | .interrupted r => .interrupted r
  | .blocked => .blocked

/-- The interactive resolution loop shared (with identical transition
logic, differing only in prompt and listing) by `Fcd.alias_handler`
(`fcd.py:311-322`), the interactive branch of `Fcd.delete_handler`
(`fcd.py:370-374`) and the selection loop of `Fcd.command_handler`
(`fcd.py:415-418`): while the current text is not an exact store key, block
on one line of input (seeded with the text) and repeat with the returned
line. -/
def resolveLoop (db : Store) : String → List InEvent → LoopRes
  | a, script =>
    if db.contains a then .resolved a script 0
    else
      match script with
      | [] => .blocked
      | .interrupt :: rest => .interrupted rest
      | .line s :: rest => (resolveLoop db s rest).succRead

/-- Result of `Fcd.save_for_later_execution` (`fcd.py:194-233`): on
success, the contents written to the directory hand-off file and (when the
record carries a command) the command hand-off file; when the stored
directory does not exist on disk, a `sys.exit(1)` carrying the stale
directory that the printed message names; `keyErr` models the `KeyError`
Python would raise were the alias not a store key (no call site does
this). -/
inductive SflRes where
  | ok (dirFile : String) (cmdFile : Option String)
  | exitMissingDir (staleDir : String)
  | keyErr
deriving Repr, DecidableEq

namespace Fcd

/-- Model of `Fcd.save_for_later_execution` (`fcd.py:194-233`).  `dirExists` is the
`os.path.isdir` oracle.  The function writes the hand-off files and never
touches the store or the backing database file. -/
def save_for_later_execution (dirExists : String → Bool) (db : Store)
    (a : String) : SflRes :=
  match db.find? a with
  | none => .keyErr
  | some r =>
    if dirExists r.directory then
      .ok (r.directory ++ "\n")
        (if r.command ≠ "" then some (r.command ++ "\n") else none)
    else .exitMissingDir r.directory

/-- Result of `Fcd.alias_handler`: hand-off file contents plus the reads
performed and remaining input, or one of the abort outcomes. -/
inductive AliasRes where
  | done (dirFile : String) (cmdFile : Option String) (reads : Nat)
      (rest : List InEvent)
  | exitMissingDir (staleDir : String)
  | keyErr
  | interrupted
  | blocked
deriving Repr, DecidableEq

/-- Model of `Fcd.alias_handler` (`fcd.py:296-323`): exact keys resolve on the spot,
anything else enters the interactive loop; the resolved key is handed to
`save_for_later_execution`. -/
def alias_handler (dirExists : String → Bool) (db : Store) (a : String)
    (script : List InEvent) : AliasRes :=
  match resolveLoop db a script with
  | .resolved ra rest n =>
    match save_for_later_execution dirExists db ra with
    | .ok df cf => .done df cf n rest
    | .exitMissingDir d => .exitMissingDir d
    | .keyErr => .keyErr
  | .interrupted _ => .interrupted
  | .blocked => .blocked

/-- Outcome of `Fcd.add_handler` (`fcd.py:325-348`): the store afterwards,
the snapshots passed to `Db.save`, and the `sys.exit` code if any. -/
structure AddOutcome where
  db : Store
  saves : List Store
  exitCode : Option Nat
deriving Repr, DecidableEq

/-- Model of `Fcd.add_handler` (`fcd.py:325-348`): a fresh alias is inserted with
the current working directory and an empty command and the store is saved;
an existing alias aborts with exit status 1 and no mutation. -/
def add_handler (db : Store) (cwd : String) (arg_add : String) : AddOutcome :=
  if db.contains arg_add = false then
    let db' := db.insert arg_add ⟨cwd, ""⟩
    { db := db', saves := [db'], exitCode := none }
  else
    { db := db, saves := [], exitCode := some 1 }

/-- The `--delete` argument: `-d` alone makes argparse pass `True`
(`const=True`, `fcd.py:57`), `-d ALIAS` passes the string. -/
inductive DelArg where
  | flagOnly
  | withAlias (s : String)
deriving Repr, DecidableEq

/-- Result of `Fcd.delete_handler`: the store afterwards, the snapshots
saved, whether the interactive branch was taken, the reads performed and
the remaining input; an abort; or the uncaught `ValueError` raised by the
isinstance type guard at `fcd.py:359-360` when the argument is not a
string. -/
inductive DeleteRes where
  | done (db : Store) (saves : List Store) (interactive : Bool) (reads : Nat)
      (rest : List InEvent)
  | interrupted
  | blocked
  | valueErr
deriving Repr, DecidableEq

/-- Model of `Fcd.delete_handler` (`fcd.py:350-392`).  The function opens
with `if not isinstance(arg_delete, str): raise ValueError(...)`
(`fcd.py:359-360`); a bare `-d` makes argparse pass the bool `True`
(`const=True`, `fcd.py:57`), which is not a `str`, so that invocation
raises `ValueError` before anything else runs — the `arg_delete is True`
test at `fcd.py:363` that would seed the interactive loop is dead code.
A string argument that is an exact store key is deleted directly; a
non-key string argument enters the interactive loop seeded with the
argument text; in both surviving branches the store is saved
afterwards. -/
def delete_handler (db : Store) (arg : DelArg) (script : List InEvent) :
    DeleteRes :=
  match arg with
  | .flagOnly => .valueErr
  | .withAlias s =>
    if db.contains s then
      let db' := db.erase s
      .done db' [db'] false 0 script
    else
      match resolveLoop db s script with
      | .resolved a rest n =>
        let db' := db.erase a
        .done db' [db'] true n rest
      | .interrupted _ => .interrupted
      | .blocked => .blocked

/-- The `--command` argument: `-c` alone makes argparse pass `True`
(`const=True`, `fcd.py:59`), `-c TEXT` passes the string. -/
inductive CmdArg where
  | flagOnly
  | text (s : String)
deriving Repr, DecidableEq

/-- Result of `Fcd.command_handler`: the store afterwards, the snapshots
saved, the selection reads performed and the remaining input; or an
abort. -/
inductive CommandRes where
  | done (db : Store) (saves : List Store) (selectReads : Nat)
      (rest : List InEvent)
  | interrupted
  | blocked
deriving Repr, DecidableEq

/-- Model of `Fcd.command_handler` (`fcd.py:394-430`): the target is
`args.get("add")` when that value is a store key, otherwise the interactive
selection loop (seeded empty) picks it; the command text is the `-c` value,
or one further blocking free-text read when `-c` was given bare; the record
is updated and the store saved. -/
def command_handler (db : Store) (arg_add : Option String) (arg_cmd : CmdArg)
    (script : List InEvent) : CommandRes :=
  let sel : LoopRes :=
    match arg_add with
    | some a => if db.contains a then .resolved a script 0 else resolveLoop db "" script
    | none => resolveLoop db "" script
  match sel with
  | .resolved a rest n =>
    match arg_cmd with
    | .text cmd =>
      let db' := db.setCommand a cmd
      .done db' [db'] n rest
    | .flagOnly =>
      match rest with
      | [] => .blocked
      | .interrupt :: _ => .interrupted
      | .line cmd :: rest2 =>
        let db' := db.setCommand a cmd
        .done db' [db'] n rest2
  | .interrupted _ => .interrupted
  | .blocked => .blocked

end Fcd

/-- The pre-validated argparse result (`parse_args`, `fcd.py:45-65`)
consumed by `Fcd.args_handler`: the optional `--add` alias, the optional
`--delete` argument, the optional `--command` argument, the optional
positional alias, and whether the process was started with no arguments at
all (`len(sys.argv) == 1`). -/
structure Args where
  add : Option String
  delete : Option Fcd.DelArg
  command : Option Fcd.CmdArg
  aliasArg : Option String
  argvLen1 : Bool
deriving Repr, DecidableEq

/-- The dispatch branches of `Fcd.args_handler` (`fcd.py:448-488`). -/
inductive Branch where
  | resolve
  | add
  | delete
  | command
deriving Repr, DecidableEq

/-- Final state of one invocation: `finished none` is a normal return,
`finished (some n)` a `sys.exit(n)` raised somewhere (SystemExit is not a
KeyboardInterrupt, so the handler at `fcd.py:484` does not catch it),
`interrupted b` a `KeyboardInterrupt` during a blocking read of branch `b`
(caught at `fcd.py:484`, which prints and exits 1), `blocked b` the model
artifact of an exhausted input script, and `pyErr b` an uncaught Python
exception escaping branch `b` — the `except KeyboardInterrupt` at
`fcd.py:484` does not catch it and the interpreter terminates with its own
non-zero status.  A bare `-d` reaches `pyErr .delete` through the
`ValueError` of the delete handler type guard; the `KeyError` path of the
resolve branch is unreachable. -/
inductive RunRes where
  | finished (code : Option Nat)
  | interrupted (b : Branch)
  | blocked (b : Branch)
  | pyErr (b : Branch)
deriving Repr, DecidableEq

/-- Observable outcome of `Fcd.args_handler`: the in-memory store at the
end, every snapshot passed to `Db.save` tagged with the branch that saved
it, the contents written to the two hand-off files, the stale directory
named by a `MissingDirectoryError` report if one occurred, and the final
state. -/
structure Run where
  db : Store
  saves : List (Branch × Store)
  dirFile : Option String
  cmdFile : Option String
  staleDir : Option String
  res : RunRes
deriving Repr, DecidableEq

/-- The process exit status implied by a run: the `sys.exit` code when one
was raised, 1 after a caught `KeyboardInterrupt` (`fcd.py:487`), and none
while still blocked (a normally returning `args_handler` falls back to
`main`, which simply returns).  An uncaught exception (`pyErr`) terminates
the interpreter with its own non-zero status, outside the `sys.exit`
discipline modelled here, so it is also none. -/
def Run.exitCode (r : Run) : Option Nat :=
  match r.res with
  | .finished c => c
  | .interrupted _ => some 1
  | .blocked _ => none
  | .pyErr _ => none

namespace Fcd

/-- Stage three of `args_handler` (`fcd.py:482-483`): run `command_handler`
when `--command` was given and `--delete` was not. -/
def dispatchCommand (db : Store) (args : Args) (script : List InEvent)
    (dirFile cmdFile : Option String) (saves : List (Branch × Store)) :
    Run :=
  match args.command, args.delete with
  | some cArg, none =>
    match command_handler db args.add cArg script with
    | .done db' s2 _ _ =>
      { db := db', saves := saves ++ s2.map (fun d => (Branch.command, d)),
        dirFile := dirFile, cmdFile := cmdFile, staleDir := none,
        res := .finished none }
    | .interrupted =>
      { db := db, saves := saves, dirFile := dirFile, cmdFile := cmdFile,
        staleDir := none, res := .interrupted .command }
    | .blocked =>
      { db := db, saves := saves, dirFile := dirFile, cmdFile := cmdFile,
        staleDir := none, res := .blocked .command }
  | _, _ =>
    { db := db, saves := saves, dirFile := dirFile, cmdFile := cmdFile,
      staleDir := none, res := .finished none }

/-- Stage two of `args_handler` (`fcd.py:476-480`): run `add_handler` when
`--add` was given, otherwise `delete_handler` when `--delete` was given,
then hand over to the command stage. -/
def dispatchMutations (cwd : String) (db : Store) (args : Args)
    (script : List InEvent) (dirFile cmdFile : Option String) : Run :=
  match args.add with
  | some aAdd =>
    match add_handler db cwd aAdd with
    | ⟨db2, saves2, some c⟩ =>
      { db := db2, saves := saves2.map (fun d => (Branch.add, d)),
        dirFile := dirFile, cmdFile := cmdFile, staleDir := none,
        res := .finished (some c) }
    | ⟨db2, saves2, none⟩ =>
      dispatchCommand db2 args script dirFile cmdFile
        (saves2.map (fun d => (Branch.add, d)))
  | none =>
    match args.delete with
    | some dArg =>
      match delete_handler db dArg script with
      | .done db' s2 _ _ rest =>
        dispatchCommand db' args rest dirFile cmdFile
          (s2.map (fun d => (Branch.delete, d)))
      | .interrupted =>
        { db := db, saves := [], dirFile := dirFile, cmdFile := cmdFile,
          staleDir := none, res := .interrupted .delete }
      | .blocked =>
        { db := db, saves := [], dirFile := dirFile, cmdFile := cmdFile,
          staleDir := none, res := .blocked .delete }
      | .valueErr =>
        { db := db, saves := [], dirFile := dirFile, cmdFile := cmdFile,
          staleDir := none, res := .pyErr .delete }
    | none => dispatchCommand db args script dirFile cmdFile []

/-- Model of `Fcd.args_handler` (`fcd.py:448-488`): the resolve stage runs when a
positional alias was given or no arguments at all were given (in the
latter case with the empty string); then the mutation stages.  A
`KeyboardInterrupt` raised by any blocking read inside the dispatch is
caught at `fcd.py:484-487` and turned into exit status 1. -/
def args_handler (dirExists : String → Bool) (cwd : String) (db : Store)
    (args : Args) (script : List InEvent) : Run :=
  if args.aliasArg.isSome || args.argvLen1 then
    match alias_handler dirExists db
        (if args.argvLen1 then "" else args.aliasArg.getD "") script with
    | .done df cf _ rest => dispatchMutations cwd db args rest (some df) cf
    | .exitMissingDir d =>
      { db := db, saves := [], dirFile := none, cmdFile := none,
        staleDir := some d, res := .finished (some 1) }
    | .keyErr =>
      { db := db, saves := [], dirFile := none, cmdFile := none,
        staleDir := none, res := .pyErr .resolve }
    | .interrupted =>
      { db := db, saves := [], dirFile := none, cmdFile := none,
        staleDir := none, res := .interrupted .resolve }
    | .blocked =>
      { db := db, saves := [], dirFile := none, cmdFile := none,
        staleDir := none, res := .blocked .resolve }
  else dispatchMutations cwd db args script none none

end Fcd

theorem resolveLoop_of_contains {db : Store} {a : String}
    (script : List InEvent) (h : db.contains a = true) :
    resolveLoop db a script = .resolved a script 0 := by
  rw [resolveLoop.eq_def]
  simp [h]

/-- Claim C4: for every store and every alias that is an exact key of the
store, resolution reaches the RESOLVED state immediately — with the input
stream untouched and zero blocking reads — whatever input the user might
have been prepared to type. -/
theorem C4_exact_match_zero_interaction (db : Store) (a : String)
    (script : List InEvent) (h : db.contains a = true) :
    resolveLoop db a script = .resolved a script 0 :=
  resolveLoop_of_contains script h

/-- Witness for C4 on a one-record store. -/
theorem C4_witness :
    resolveLoop [("proj", ⟨"/home/u/proj", ""⟩)] "proj" [.line "x"] =
      .resolved "proj" [.line "x"] 0 :=
  C4_exact_match_zero_interaction [("proj", ⟨"/home/u/proj", ""⟩)] "proj"
    [.line "x"] (by decide)

theorem add_handler_fresh {db : Store} {cwd arg_add : String}
    (h : db.contains arg_add = false) :
    Fcd.add_handler db cwd arg_add =
      { db := db ++ [(arg_add, ⟨cwd, ""⟩)],
        saves := [db ++ [(arg_add, ⟨cwd, ""⟩)]], exitCode := none } := by
  simp [Fcd.add_handler, h, Store.insert]

/-- Claim C5: adding an alias that is already a key never mutates the
store, reports the duplicate-alias error, performs no save, and exits with
status 1; adding a fresh alias appends the record built from the current
working directory with an empty command and saves the store. -/
theorem C5_add_refuses_duplicate (db : Store) (cwd arg_add : String) :
    (db.contains arg_add = true →
      Fcd.add_handler db cwd arg_add =
        { db := db, saves := [], exitCode := some 1 }) ∧
    (db.contains arg_add = false →
      Fcd.add_handler db cwd arg_add =
        { db := db ++ [(arg_add, ⟨cwd, ""⟩)],
          saves := [db ++ [(arg_add, ⟨cwd, ""⟩)]], exitCode := none }) := by
  constructor
  · intro h
    simp [Fcd.add_handler, h]
  · intro h
    exact add_handler_fresh h

/-- Witness for C5: the duplicate branch on a store that has the alias, the
insert branch on a store that does not. -/
theorem C5_witness :
    Fcd.add_handler [("work", ⟨"/tmp/x", ""⟩)] "/tmp/y" "work" =
      { db := [("work", ⟨"/tmp/x", ""⟩)], saves := [], exitCode := some 1 } ∧
    Fcd.add_handler [] "/tmp/x" "work" =
      { db := [("work", ⟨"/tmp/x", ""⟩)],
        saves := [[("work", ⟨"/tmp/x", ""⟩)]], exitCode := none } :=
  ⟨(C5_add_refuses_duplicate [("work", ⟨"/tmp/x", ""⟩)] "/tmp/y" "work").1
      (by decide),
   by
    have h := (C5_add_refuses_duplicate [] "/tmp/x" "work").2 (by decide)
    simpa using h⟩

/-- Claim C10: the add operation does not enforce alias non-emptiness — on
a store free of the empty-string key it inserts and persists a record
keyed by the empty string, after which the store violates the non-empty-key
data-model invariant. -/
theorem C10_empty_alias_insert (db : Store) (cwd : String)
    (h : db.contains "" = false) :
    Fcd.add_handler db cwd "" =
      { db := db ++ [("", ⟨cwd, ""⟩)], saves := [db ++ [("", ⟨cwd, ""⟩)]],
        exitCode := none } ∧
    ¬ (Fcd.add_handler db cwd "").db.keysNonempty := by
  have he := @add_handler_fresh db cwd "" h
  refine ⟨he, ?_⟩
  intro hne
  have hmem : (("" : String), (⟨cwd, ""⟩ : Record)) ∈
      (Fcd.add_handler db cwd "").db := by
    rw [he]
    simp
  exact hne _ hmem rfl

/-- Witness for C10 on the empty store. -/
theorem C10_witness :
    Fcd.add_handler [] "/tmp/x" "" =
      { db := [("", ⟨"/tmp/x", ""⟩)], saves := [[("", ⟨"/tmp/x", ""⟩)]],
        exitCode := none } ∧
    ¬ (Fcd.add_handler [] "/tmp/x" "").db.keysNonempty := by
  have h := C10_empty_alias_insert [] "/tmp/x" (by decide)
  simpa using h

/-- Claim C7: when the resolved record names a directory that exists, the
directory path followed by exactly one newline is written to the directory
hand-off file, and the command hand-off file is written — containing the
command followed by one newline — exactly when the command is non-empty. -/
theorem C7_handoff_files (dirExists : String → Bool) (db : Store)
    (a : String) (r : Record) (h : db.find? a = some r)
    (hd : dirExists r.directory = true) :
    (r.command = "" →
      Fcd.save_for_later_execution dirExists db a =
        .ok (r.directory ++ "\n") none) ∧
    (r.command ≠ "" →
      Fcd.save_for_later_execution dirExists db a =
        .ok (r.directory ++ "\n") (some (r.command ++ "\n"))) := by
  constructor
  · intro hc
    simp [Fcd.save_for_later_execution, h, hd, hc]
  · intro hc
    simp [Fcd.save_for_later_execution, h, hd, hc]

/-- Witness for C7: a record with no command yields only the directory
file; a record with a command yields both files. -/
theorem C7_witness :
    Fcd.save_for_later_execution (fun _ => true)
      [("proj", ⟨"/home/u/proj", ""⟩)] "proj" =
      .ok ("/home/u/proj" ++ "\n") none ∧
    Fcd.save_for_later_execution (fun _ => true)
      [("b", ⟨"/b", "make"⟩)] "b" =
      .ok ("/b" ++ "\n") (some ("make" ++ "\n")) :=
  ⟨(C7_handoff_files (fun _ => true) [("proj", ⟨"/home/u/proj", ""⟩)] "proj"
      ⟨"/home/u/proj", ""⟩ (by decide) (by decide)).1 (by decide),
   (C7_handoff_files (fun _ => true) [("b", ⟨"/b", "make"⟩)] "b"
      ⟨"/b", "make"⟩ (by decide) (by decide)).2 (by decide)⟩

theorem jsonToRecord_recordToJson (r : Record) :
    jsonToRecord (recordToJson r) = some r := by
  simp [jsonToRecord, recordToJson, jLookup]

theorem jsonFieldsToStore_map (db : Store) :
    jsonFieldsToStore (db.map (fun p => (p.1, recordToJson p.2))) =
      some db := by
  induction db with
  | nil => rfl
  | cons p t ih =>
    simp [jsonFieldsToStore, jsonToRecord_recordToJson, ih]

/-- Claim C8: saving any store and loading the result yields the identical
mapping back (and the load performs no further writes). -/
theorem C8_save_load_roundtrip (db : Store) :
    Db.load (some (Db.save db)) = .ok db [] := by
  simp [Db.load, Db.save, storeToJson, jsonToStore, jsonFieldsToStore_map]

theorem Store.find?_some_mem {db : Store} {a : String} {r : Record}
    (h : db.find? a = some r) : (a, r) ∈ db := by
  induction db with
  | nil => simp [Store.find?] at h
  | cons p t ih =>
    obtain ⟨k, rr⟩ := p
    rw [Store.find?] at h
    by_cases hk : k = a
    · rw [if_pos hk] at h
      obtain rfl := Option.some.inj h
      subst hk
      exact List.mem_cons_self _ _
    · rw [if_neg hk] at h
      exact List.mem_cons_of_mem _ (ih h)

theorem Store.contains_empty_false {db : Store} (hne : db.keysNonempty) :
    db.contains "" = false := by
  cases hc : db.contains "" with
  | false => rfl
  | true =>
    exfalso
    unfold Store.contains at hc
    obtain ⟨r, hr⟩ := Option.isSome_iff_exists.mp hc
    exact hne _ (Store.find?_some_mem hr) rfl

/-- Claim C6: invoking fcd with an alias that is an exact key whose stored
directory no longer exists on disk terminates with exit status 1, names
the stale directory in the report, leaves the in-memory store unchanged,
performs no save of the backing store file, and writes neither hand-off
file. -/
theorem C6_missing_directory (dirExists : String → Bool) (cwd : String)
    (db : Store) (a : String) (r : Record) (script : List InEvent)
    (h : db.find? a = some r) (hd : dirExists r.directory = false) :
    Fcd.args_handler dirExists cwd db
      ⟨none, none, none, some a, false⟩ script =
      { db := db, saves := [], dirFile := none, cmdFile := none,
        staleDir := some r.directory, res := .finished (some 1) } := by
  have hc : db.contains a = true := by simp [Store.contains, h]
  have hl := @resolveLoop_of_contains db a script hc
  simp [Fcd.args_handler, Fcd.alias_handler, hl,
    Fcd.save_for_later_execution, h, hd]

/-- Witness for C6: a store whose only record points at a directory the
filesystem oracle reports missing. -/
theorem C6_witness :
    Fcd.args_handler (fun _ => false) "/w" [("a", ⟨"/gone", ""⟩)]
      ⟨none, none, none, some "a", false⟩ [] =
      { db := [("a", ⟨"/gone", ""⟩)], saves := [], dirFile := none,
        cmdFile := none, staleDir := some "/gone",
        res := .finished (some 1) } :=
  C6_missing_directory (fun _ => false) "/w" [("a", ⟨"/gone", ""⟩)] "a"
    ⟨"/gone", ""⟩ [] (by decide) (by decide)

/-- Counterexample to claim C3 as stated: bare `-d` on a one-record store
with the user ready to type the key `a`.  The claim predicts that the
interactive resolver in delete mode runs and deletes the typed key (the
outcome `.done [] [[]] true 1 []`); argparse instead passes the bool
`True`, the isinstance guard at `fcd.py:359-360` raises an uncaught
`ValueError`, and no interaction, deletion or save happens. -/
theorem C3_counterexample :
    Fcd.delete_handler [("a", ⟨"/a", ""⟩)] .flagOnly [.line "a"] =
      .valueErr ∧
    Fcd.delete_handler [("a", ⟨"/a", ""⟩)] .flagOnly [.line "a"] ≠
      .done [] [[]] true 1 [] :=
  ⟨by decide, by decide⟩

/-- Claim C3 (amended): a delete argument that is a string exactly
matching a store key deletes that record directly — no listing loop, zero
reads, input untouched — and saves the store; an empty-string argument
(on a store honouring the non-empty-key invariant) or a non-matching
string argument enters the interactive delete loop, and the key that loop
resolves is deleted and the store saved; an absent argument (the bare
flag, for which argparse passes the bool `True`) fails the delete handler
type guard and raises an uncaught `ValueError` — no interaction, no
deletion, no save. -/
theorem C3_delete_dispatch (db : Store) (script : List InEvent)
    (hne : db.keysNonempty) :
    (∀ s, db.contains s = true →
      Fcd.delete_handler db (.withAlias s) script =
        .done (db.erase s) [db.erase s] false 0 script) ∧
    Fcd.delete_handler db .flagOnly script = .valueErr ∧
    (∀ a rest n, resolveLoop db "" script = .resolved a rest n →
      Fcd.delete_handler db (.withAlias "") script =
        .done (db.erase a) [db.erase a] true n rest) ∧
    (∀ s a rest n, db.contains s = false →
      resolveLoop db s script = .resolved a rest n →
      Fcd.delete_handler db (.withAlias s) script =
        .done (db.erase a) [db.erase a] true n rest) := by
  have hempty : db.contains "" = false := Store.contains_empty_false hne
  refine ⟨?_, rfl, ?_, ?_⟩
  · intro s hs
    simp [Fcd.delete_handler, hs]
  · intro a rest n hres
    simp [Fcd.delete_handler, hempty, hres]
  · intro s a rest n hs hres
    simp [Fcd.delete_handler, hs, hres]

/-- Witness for the amended C3: direct deletion of an exact match, the
`ValueError` of the bare flag, and interactive deletion for the empty and
for a non-matching argument, on a two-record store. -/
theorem C3_witness :
    Fcd.delete_handler [("a", ⟨"/a", ""⟩), ("b", ⟨"/b", ""⟩)]
        (.withAlias "b") [.line "a"] =
      .done [("a", ⟨"/a", ""⟩)] [[("a", ⟨"/a", ""⟩)]] false 0 [.line "a"] ∧
    Fcd.delete_handler [("a", ⟨"/a", ""⟩), ("b", ⟨"/b", ""⟩)]
        .flagOnly [.line "a"] = .valueErr ∧
    Fcd.delete_handler [("a", ⟨"/a", ""⟩), ("b", ⟨"/b", ""⟩)]
        (.withAlias "") [.line "a"] =
      .done [("b", ⟨"/b", ""⟩)] [[("b", ⟨"/b", ""⟩)]] true 1 [] ∧
    Fcd.delete_handler [("a", ⟨"/a", ""⟩), ("b", ⟨"/b", ""⟩)]
        (.withAlias "x") [.line "a"] =
      .done [("b", ⟨"/b", ""⟩)] [[("b", ⟨"/b", ""⟩)]] true 1 [] := by
  have h := C3_delete_dispatch [("a", ⟨"/a", ""⟩), ("b", ⟨"/b", ""⟩)]
    [.line "a"] (by decide)
  refine ⟨?_, h.2.1, ?_, ?_⟩
  · have := h.1 "b" (by decide)
    simpa using this
  · have := h.2.2.1 "a" [] 1 (by decide)
    simpa using this
  · have := h.2.2.2 "x" "a" [] 1 (by decide) (by decide)
    simpa using this

/-- Claim C2 (amended): the set-command operation applies the command
without interactive selection exactly when the `--add` argument names a
store key (the alias resolved by the Add in the same invocation); in every
other case — including when an exact-match positional alias argument was
given — the interactive selection loop, seeded with the empty string, picks
the target.  The resolved record has its command replaced and the store is
saved. -/
theorem C2_command_target (db : Store) :
    (∀ a cmd script, db.contains a = true →
      Fcd.command_handler db (some a) (.text cmd) script =
        .done (db.setCommand a cmd) [db.setCommand a cmd] 0 script) ∧
    (∀ a cmd rest, db.contains a = true →
      Fcd.command_handler db (some a) .flagOnly (.line cmd :: rest) =
        .done (db.setCommand a cmd) [db.setCommand a cmd] 0 rest) ∧
    (∀ x arg_cmd script, db.contains x = false →
      Fcd.command_handler db (some x) arg_cmd script =
        Fcd.command_handler db none arg_cmd script) ∧
    (∀ cmd script a rest n, resolveLoop db "" script = .resolved a rest n →
      Fcd.command_handler db none (.text cmd) script =
        .done (db.setCommand a cmd) [db.setCommand a cmd] n rest) := by
  refine ⟨?_, ?_, ?_, ?_⟩
  · intro a cmd script h
    simp [Fcd.command_handler, h]
  · intro a cmd rest h
    simp [Fcd.command_handler, h]
  · intro x arg_cmd script h
    simp [Fcd.command_handler, h]
  · intro cmd script a rest n hres
    simp [Fcd.command_handler, hres]

/-- Counterexample to claim C2 as stated: the store has the single alias
`x`, the invocation carries the exact-match positional alias `x` and
`--command c`, and the input script is empty.  The claim predicts that the
command is applied to the record of `x` with no interactive selection (the
run would finish normally and save the updated store); instead the
dispatch enters the interactive selection loop of the command branch and
is still waiting for input there, having saved nothing and changed
nothing. -/
theorem C2_counterexample :
    (Fcd.args_handler (fun _ => true) "/w" [("x", ⟨"/d", ""⟩)]
      ⟨none, none, some (.text "c"), some "x", false⟩ []).res =
        .blocked .command ∧
    (Fcd.args_handler (fun _ => true) "/w" [("x", ⟨"/d", ""⟩)]
      ⟨none, none, some (.text "c"), some "x", false⟩ []).saves = [] ∧
    (Fcd.args_handler (fun _ => true) "/w" [("x", ⟨"/d", ""⟩)]
      ⟨none, none, some (.text "c"), some "x", false⟩ []).db =
        [("x", ⟨"/d", ""⟩)] := by
  refine ⟨?_, ?_, ?_⟩ <;> decide

/-- Witness for the amended C2: the Add-resolved target is updated with no
selection read; with no `--add`, the selection loop picks the target typed
by the user. -/
theorem C2_witness :
    Fcd.command_handler [("x", ⟨"/d", ""⟩)] (some "x") (.text "c") [] =
      .done [("x", ⟨"/d", "c"⟩)] [[("x", ⟨"/d", "c"⟩)]] 0 [] ∧
    Fcd.command_handler [("x", ⟨"/d", ""⟩)] none (.text "c") [.line "x"] =
      .done [("x", ⟨"/d", "c"⟩)] [[("x", ⟨"/d", "c"⟩)]] 1 [] := by
  have h := C2_command_target [("x", ⟨"/d", ""⟩)]
  constructor
  · have := h.1 "x" "c" [] (by decide)
    simpa [Store.setCommand] using this
  · have := h.2.2.2 "c" [.line "x"] "x" [] 1 (by decide)
    simpa [Store.setCommand] using this

/-- Claim C1 (amended): for every store and prefix, the matches of the
completer are exactly the aliases starting with the prefix, listed in
ascending case-insensitive order; the completer returns the i-th match at
every index below the match count, the no-more-results sentinel exactly at
the match count, and raises an index error (rather than yielding the
sentinel) at every index strictly beyond the match count. -/
theorem C1_completer (db : Store) (p : String) :
    List.Sorted ciLe ((sortedAliases db).filter (fun x => startswith x p)) ∧
    (∀ x, x ∈ (sortedAliases db).filter (fun x => startswith x p) ↔
      x ∈ db.keys ∧ startswith x p = true) ∧
    (∀ i, i ≤ ((sortedAliases db).filter (fun x => startswith x p)).length →
      complete (sortedAliases db) p i =
        some (((sortedAliases db).filter (fun x => startswith x p))[i]?)) ∧
    (∀ i, ((sortedAliases db).filter (fun x => startswith x p)).length < i →
      complete (sortedAliases db) p i = none) := by
  refine ⟨?_, ?_, ?_, ?_⟩
  · exact List.Pairwise.sublist (List.filter_sublist _)
      (List.sorted_insertionSort ciLe db.keys)
  · intro x
    simp [List.mem_filter, sortedAliases,
      (List.perm_insertionSort ciLe db.keys).mem_iff]
  · intro i hi
    unfold complete
    rcases Nat.lt_or_ge i
        ((sortedAliases db).filter (fun x => startswith x p)).length with
      hlt | hge
    · rw [List.getElem?_append_left (by simpa using hlt),
        List.getElem?_map, List.getElem?_eq_getElem hlt]
      rfl
    · have heq : i =
          ((sortedAliases db).filter (fun x => startswith x p)).length :=
        le_antisymm hi hge
      subst heq
      have hcat := List.getElem?_concat_length
        (((sortedAliases db).filter (fun x => startswith x p)).map some)
        (none : Option String)
      rw [List.length_map] at hcat
      rw [hcat, List.getElem?_eq_none (le_refl _)]
  · intro i hbig
    unfold complete
    rw [List.getElem?_eq_none (by simp; omega)]

/-- Counterexample to claim C1 as stated: on the store with the single
alias `a` and prefix `a` there is exactly one match, so the claim predicts
the no-more-results sentinel (modelled `some none`) at every index from 1
on; at index 2 the code instead evaluates `results[2]` on the two-element
list `["a", None]` and raises `IndexError` (modelled `none`). -/
theorem C1_counterexample :
    complete (sortedAliases [("a", ⟨"/a", ""⟩)]) "a" 2 = none ∧
    (none : Option (Option String)) ≠ some none := by
  exact ⟨by decide, by decide⟩

/-- Witness for the amended C1 on a two-alias store whose case-insensitive
order differs from the code-point order: index 0 and 1 return the matches,
index 2 (the match count) the sentinel, index 3 the index error. -/
theorem C1_witness :
    complete (sortedAliases [("b", ⟨"/b", ""⟩), ("A", ⟨"/A", ""⟩)]) "" 0 =
      some (some "A") ∧
    complete (sortedAliases [("b", ⟨"/b", ""⟩), ("A", ⟨"/A", ""⟩)]) "" 2 =
      some none ∧
    complete (sortedAliases [("b", ⟨"/b", ""⟩), ("A", ⟨"/A", ""⟩)]) "" 3 =
      none := by
  have h := C1_completer [("b", ⟨"/b", ""⟩), ("A", ⟨"/A", ""⟩)] ""
  refine ⟨?_, ?_, ?_⟩
  · have h0 := h.2.2.1 0 (by decide)
    rw [h0]; decide
  · have h2 := h.2.2.1 2 (by decide)
    rw [h2]; decide
  · exact h.2.2.2 3 (by decide)

theorem dispatchCommand_interrupted {db : Store} {args : Args}
    {script : List InEvent} {df cf : Option String}
    {saves : List (Branch × Store)} {b : Branch}
    (h : (Fcd.dispatchCommand db args script df cf saves).res =
      .interrupted b) :
    b = .command ∧
    (Fcd.dispatchCommand db args script df cf saves).saves = saves := by
  unfold Fcd.dispatchCommand at h ⊢
  cases hc : args.command with
  | none => simp [hc] at h
  | some cArg =>
    cases hd : args.delete with
    | some dArg => simp [hc, hd] at h
    | none =>
      simp only [hc, hd] at h ⊢
      cases hch : Fcd.command_handler db args.add cArg script with
      | done db2 s2 m rest => simp [hch] at h
      | blocked => simp [hch] at h
      | interrupted =>
        simp only [hch] at h ⊢
        refine ⟨?_, by trivial⟩
        first
        | exact h.symm
        | (injection h with hb; exact hb.symm)

theorem dispatchMutations_interrupted {cwd : String} {db : Store}
    {args : Args} {script : List InEvent} {df cf : Option String}
    {b : Branch}
    (h : (Fcd.dispatchMutations cwd db args script df cf).res =
      .interrupted b) :
    ∀ q ∈ (Fcd.dispatchMutations cwd db args script df cf).saves,
      q.1 ≠ b := by
  unfold Fcd.dispatchMutations at h ⊢
  cases ha : args.add with
  | some aAdd =>
    simp only [ha] at h ⊢
    cases hao : Fcd.add_handler db cwd aAdd with
    | mk db2 saves2 e =>
      cases e with
      | some c => simp [hao] at h
      | none =>
        simp only [hao] at h ⊢
        obtain ⟨hb, hs⟩ := dispatchCommand_interrupted h
        rw [hs]
        subst hb
        intro q hq
        simp only [List.mem_map] at hq
        obtain ⟨d, _, rfl⟩ := hq
        simp
  | none =>
    cases hd : args.delete with
    | some dArg =>
      simp only [ha, hd] at h ⊢
      cases hdel : Fcd.delete_handler db dArg script with
      | done db2 s2 i m rest =>
        simp only [hdel] at h ⊢
        obtain ⟨hb, hs⟩ := dispatchCommand_interrupted h
        rw [hs]
        subst hb
        intro q hq
        simp only [List.mem_map] at hq
        obtain ⟨d, _, rfl⟩ := hq
        simp
      | interrupted => simp [hdel] at h ⊢
      | blocked => simp [hdel] at h
      | valueErr => simp [hdel] at h
    | none =>
      simp only [ha, hd] at h ⊢
      obtain ⟨hb, hs⟩ := dispatchCommand_interrupted h
      rw [hs]
      intro q hq
      simp at hq

/-- Claim C9: whenever a run of the dispatch ends because a
`KeyboardInterrupt` arrived during a blocking interactive read of some
branch, the whole invocation exits with status 1, and no store snapshot
saved during the run was saved by that branch (the interrupted branch
never reached its save). -/
theorem C9_interrupt_no_partial_persist (dirExists : String → Bool)
    (cwd : String) (db : Store) (args : Args) (script : List InEvent)
    (b : Branch)
    (h : (Fcd.args_handler dirExists cwd db args script).res =
      .interrupted b) :
    (Fcd.args_handler dirExists cwd db args script).exitCode = some 1 ∧
    ∀ q ∈ (Fcd.args_handler dirExists cwd db args script).saves,
      q.1 ≠ b := by
  constructor
  · unfold Run.exitCode
    rw [h]
  · unfold Fcd.args_handler at h ⊢
    by_cases hal : (args.aliasArg.isSome || args.argvLen1) = true
    · simp only [hal, if_true] at h ⊢
      cases hah : Fcd.alias_handler dirExists db
          (if args.argvLen1 then "" else args.aliasArg.getD "") script with
      | done df cf n rest =>
        simp only [hah] at h ⊢
        exact dispatchMutations_interrupted h
      | exitMissingDir d => simp [hah] at h
      | keyErr => simp [hah] at h
      | interrupted => simp [hah] at h ⊢
      | blocked => simp [hah] at h
    · simp only [Bool.not_eq_true] at hal
      simp only [hal, Bool.false_eq_true, if_false] at h ⊢
      exact dispatchMutations_interrupted h

/-- Witness for C9: deleting a non-key alias enters the interactive
delete loop, which is interrupted at its first read; the run exits 1 with
no snapshot saved by the delete branch (or any other). -/
theorem C9_witness :
    (Fcd.args_handler (fun _ => true) "/w" [("a", ⟨"/a", ""⟩)]
      ⟨none, some (.withAlias "zz"), none, none, false⟩
      [.interrupt]).exitCode = some 1 ∧
    ∀ q ∈ (Fcd.args_handler (fun _ => true) "/w" [("a", ⟨"/a", ""⟩)]
      ⟨none, some (.withAlias "zz"), none, none, false⟩
      [.interrupt]).saves,
      q.1 ≠ .delete :=
  C9_interrupt_no_partial_persist (fun _ => true) "/w" [("a", ⟨"/a", ""⟩)]
    ⟨none, some (.withAlias "zz"), none, none, false⟩ [.interrupt] .delete
    (by decide)
